import Mathlib

/-!
Shallow embedding of `src/throttler.go` (package `throttler`, type `T`).

Modelling conventions:
* Go `float64` values are embedded as rationals `ℚ`; the claims are about the
  control algorithm (comparisons, clamping, linear steps), not about rounding.
* The atomically-boxed admission rate `t.r` (an `unsafe.Pointer` to a boxed
  float, lines 44, 65, 82, 99, 132, 142, 149) is embedded as a plain field of
  type `ℚ`: a whole-value read/replace.
* The random generator `t.rand`: `Allow` computes `t.rand.Float64() * 100.0`
  (line 82).  `Float64` returns a value in `[0,1)`; the draw is passed to the
  embedded `Allow` as an explicit argument `u01`.
* The `done` field (line 49, `done chan struct{}`) is never assigned anywhere
  in the source — `New` (lines 55-67) does not set it and neither does `Start`
  — so in Go it stays the zero value, the nil channel.  We record only whether
  the channel was ever initialized in the Boolean field `doneInitialized`; a
  send or receive on a nil Go channel blocks forever.
* The exported field `R float64` (line 41) is declared but never read or
  written by any function of the package; it is omitted.
* The `cpuUsage` sampler is an external capability; its per-tick outcome is
  carried by the event fed to the loop (`Option ℚ`, `none` = sampling error).
-/

namespace Throttler

/-- Configuration and shared state of the throttler `T`
(src/throttler.go lines 39-52).  Durations are nanosecond counts. -/
structure T where
  L : ℚ
  K : ℚ
  /-- the atomically boxed admission rate (field `r`, `unsafe.Pointer`) -/
  r : ℚ
  interval : ℕ
  intervalStep : ℕ
  /-- whether the `done` channel was ever made non-nil; no statement in the
  source ever assigns it, so it is `false` forever -/
  doneInitialized : Bool
  /-- the mutex-guarded `started` flag -/
  started : Bool
deriving Repr, DecidableEq

/-- Constructor `New` (src/throttler.go lines 55-67): stores the parameters, seeds the
boxed rate with 100, and leaves `done` as the nil channel and `started` as
`false` (Go zero values of fields the composite literal omits). -/
def New (cpuLimit k : ℚ) (interval intervalStep : ℕ) : T :=
  { L := cpuLimit
    K := k
    r := 100
    interval := interval
    intervalStep := intervalStep
    doneInitialized := false
    started := false }

/-- Decision function `Allow` (src/throttler.go lines 81-83):
`return (t.rand.Float64() * 100.0) < *(*float64)(atomic.LoadPointer(&t.r))`.
`u01` is the value returned by `t.rand.Float64()`, which lies in `[0,1)`. -/
def Allow (t : T) (u01 : ℚ) : Bool :=
  u01 * 100 < t.r

/-- The distinct error value `ErrAlreadyStarted` (src/throttler.go line 18). -/
inductive StartErr where
  | alreadyStarted
deriving Repr, DecidableEq

/-- The entry of `Start` (src/throttler.go lines 88-99): under the mutex,
if `started` is set return `ErrAlreadyStarted` with the state untouched;
otherwise set `started`, release the mutex, and reset the boxed rate to 100
before entering the event loop.  Returns the error (if any) paired with the
state as it is when the call returns / the loop begins. -/
def startEnter (t : T) : Option StartErr × T :=
  if t.started then
    (some .alreadyStarted, t)
  else
    (none, { t with started := true, r := 100 })

/-- Lifecycle method `Stop` (src/throttler.go lines 168-170) performs `t.done <- struct{}{}`.
A send on a nil Go channel blocks forever, so the send can complete only if
the `done` channel was initialized at some point. -/
def stopCanComplete (t : T) : Bool :=
  t.doneInitialized

/-- State owned by the running event loop (src/throttler.go lines 101-105):
the boxed rate `r` and the sample slice `stats`. -/
structure LoopState where
  r : ℚ
  stats : List ℚ
deriving Repr, DecidableEq

/-- Body of the `<-itk.C` case of the select (src/throttler.go lines 117-153):
if no stats were collected, log and `continue` (rate and slice untouched);
otherwise sum the slice with a running accumulator, average, compute
`step = K * (L - avg)` and `newR = r + step`, clamp `newR` below at 0 when
`avg >= L` and above at 100 when `avg < L`, store it, and reset the slice. -/
def evalTick (t : T) (r : ℚ) (stats : List ℚ) : ℚ × List ℚ :=
  if stats.length = 0 then
    (r, stats)
  else
    let sum := stats.foldl (· + ·) 0
    let avg := sum / (stats.length : ℚ)
    let step := t.K * (t.L - avg)
    let newR := r + step
    if avg ≥ t.L then
      (if newR < 0 then 0 else newR, [])
    else
      (if newR > 100 then 100 else newR, [])

/-- One event delivered to the loop's select (src/throttler.go lines 111-164). -/
inductive Event where
  /-- a value arrived on `t.done` -/
  | cancel
  /-- the evaluation ticker `itk` fired -/
  | evalTick
  /-- the sample ticker `istk` fired; payload is the `t.cpuUsage()` outcome,
  `none` when it returned an error -/
  | sample (reading : Option ℚ)
deriving Repr, DecidableEq

/-- One iteration of the event loop (src/throttler.go lines 111-164):
`none` means the loop returned (nil error); `some s` is the state carried to
the next iteration. -/
def loopStep (t : T) (s : LoopState) : Event → Option LoopState
  | .cancel => none
  | .evalTick =>
      let p := evalTick t s.r s.stats
      some ⟨p.1, p.2⟩
  | .sample none => some s
  | .sample (some v) => some { s with stats := s.stats ++ [v] }

/-- The successive admission rates produced by running one evaluation tick per
window over the listed sample buffers: the head is the starting rate and each
later entry is the rate right after that window's tick.  (After every
non-skipped tick the buffer is reset, so each window's tick sees exactly that
window's samples.) -/
def rateTrace (t : T) (r : ℚ) : List (List ℚ) → List ℚ
  | [] => [r]
  | w :: ws => r :: rateTrace t (evalTick t r w).1 ws

/-- The evaluation-tick adjustment exactly as the specification words it
(spec section 4.3, "Evaluation tick"): `avg` = arithmetic mean of the buffer,
`step = K * (L - avg)`, `newR = currentR + step`; if `avg >= L` clamp `newR`
to a minimum of 0, if `avg < L` clamp it to a maximum of 100; write
unconditionally and clear the buffer. -/
def evalTickSpec (t : T) (r : ℚ) (stats : List ℚ) : ℚ × List ℚ :=
  if stats = [] then
    (r, stats)
  else
    let avg := (stats.foldl (· + ·) 0) / (stats.length : ℚ)
    let newR := r + t.K * (t.L - avg)
    if avg ≥ t.L then
      (max 0 newR, [])
    else
      (min 100 newR, [])

/-- Interleavings of two concurrent `Allow` calls on the shared generator:
either fully serialized, or raced so that both calls load the generator state
before either stores it back (possible because line 82 calls
`t.rand.Float64()` on the shared non-thread-safe `*rand.Rand` created at line
61 with no synchronization). -/
inductive Sched where
  | seq
  | raced
deriving Repr, DecidableEq

/-- Observable outcome of two concurrent `Allow` calls sharing the
unsynchronized generator, as a function of the interleaving: each call does
load-state / advance / store-state on the generator (whose one step is
`next : state → state × draw`); the result is the pair of draws the two calls
use, together with the final generator state. -/
def twoAllowDraws (next : ℕ → ℕ × ℚ) (s : ℕ) : Sched → (ℚ × ℚ) × ℕ
  | .seq => (((next s).2, (next (next s).1).2), (next (next s).1).1)
  | .raced => (((next s).2, (next s).2), (next s).1)

/-- A concrete deterministic generator step used to exhibit the race: state
counts up, the draw is half the state. -/
def stepGen (s : ℕ) : ℕ × ℚ :=
  (s + 1, (s : ℚ) / 2)

lemma clamp_min_eq_max (x : ℚ) : (if x < 0 then 0 else x) = max 0 x := by
  rcases lt_or_le x 0 with h | h
  · simp [h, max_eq_left h.le]
  · simp [not_lt.2 h, max_eq_right h]

lemma clamp_max_eq_min (x : ℚ) : (if x > 100 then 100 else x) = min 100 x := by
  rcases lt_or_le (100 : ℚ) x with h | h
  · simp [h, min_eq_left h.le]
  · simp [not_lt.2 h, min_eq_right h]

lemma evalTick_eq_spec (t : T) (r : ℚ) (stats : List ℚ)
    (h : stats ≠ []) : evalTick t r stats = evalTickSpec t r stats := by
  have hlen : stats.length ≠ 0 := by simpa using h
  simp only [evalTick, evalTickSpec, hlen, h, if_false, ite_false]
  by_cases hc : (stats.foldl (· + ·) 0) / (stats.length : ℚ) ≥ t.L
  · simp [hc, clamp_min_eq_max]
  · simp [hc, clamp_max_eq_min]

/-- Admission-rate bounds after one evaluation tick: when `0 ≤ K` and the
incoming rate is in `[0,100]`, the rate written by the tick stays in
`[0,100]` (either branch clamps on the side the step can leave). -/
lemma evalTick_fst_mem (t : T) (hK : 0 ≤ t.K) {r : ℚ} (h0 : 0 ≤ r)
    (h1 : r ≤ 100) (stats : List ℚ) :
    0 ≤ (evalTick t r stats).1 ∧ (evalTick t r stats).1 ≤ 100 := by
  rcases eq_or_ne stats [] with he | he
  · subst he; simpa [evalTick] using ⟨h0, h1⟩
  · rw [evalTick_eq_spec t r stats he]
    simp only [evalTickSpec, he, if_false, ite_false]
    set avg := stats.foldl (· + ·) 0 / (stats.length : ℚ) with havg
    by_cases hc : avg ≥ t.L
    · have hstep : t.K * (t.L - avg) ≤ 0 :=
        mul_nonpos_iff.2 (Or.inl ⟨hK, by linarith⟩)
      simp only [hc, if_true, ite_true]
      exact ⟨le_max_left 0 _, max_le (by norm_num) (by linarith)⟩
    · have hstep : 0 ≤ t.K * (t.L - avg) :=
        mul_nonneg hK (by linarith [lt_of_not_ge hc])
      simp only [hc, if_false, ite_false]
      exact ⟨le_min (by norm_num) (by linarith), min_le_left _ _⟩

/-- A rate trace always starts with the rate it was given. -/
lemma rateTrace_head_cons (t : T) (r : ℚ) (ws : List (List ℚ)) :
    ∃ tl, rateTrace t r ws = r :: tl := by
  cases ws <;> exact ⟨_, rfl⟩

/-- Every rate in a trace started inside `[0,100]` stays inside `[0,100]`
when `0 ≤ K`. -/
lemma rateTrace_bounds (t : T) (hK : 0 ≤ t.K) :
    ∀ (ws : List (List ℚ)) {r : ℚ}, 0 ≤ r → r ≤ 100 →
      ∀ x ∈ rateTrace t r ws, 0 ≤ x ∧ x ≤ 100 := by
  intro ws
  induction ws with
  | nil =>
      intro r h0 h1 x hx
      simp only [rateTrace, List.mem_singleton] at hx
      subst hx; exact ⟨h0, h1⟩
  | cons w ws ih =>
      intro r h0 h1 x hx
      simp only [rateTrace, List.mem_cons] at hx
      rcases hx with rfl | hx
      · exact ⟨h0, h1⟩
      · obtain ⟨hr0, hr1⟩ := evalTick_fst_mem t hK h0 h1 w
        exact ih hr0 hr1 x hx

/-- Summing a list whose members all dominate `L` with a running accumulator
(the Go `for _, stat := range stats` loop) dominates `a + L * length`. -/
lemma foldl_add_ge (L : ℚ) :
    ∀ (l : List ℚ) (a : ℚ), (∀ x ∈ l, L ≤ x) →
      a + L * l.length ≤ l.foldl (· + ·) a := by
  intro l
  induction l with
  | nil => intro a _; simp
  | cons x xs ih =>
      intro a h
      have hx : L ≤ x := h x (List.mem_cons_self x xs)
      have hxs : ∀ y ∈ xs, L ≤ y := fun y hy => h y (List.mem_cons_of_mem x hy)
      have hrec := ih (a + x) hxs
      simp only [List.foldl_cons, List.length_cons]
      push_cast
      push_cast at hrec
      linarith

/-- The arithmetic mean of a non-empty list of samples that are all at or
above `L` is itself at or above `L`. -/
lemma le_avg_of_forall_le {L : ℚ} {stats : List ℚ} (hne : stats ≠ [])
    (h : ∀ x ∈ stats, L ≤ x) :
    L ≤ stats.foldl (· + ·) 0 / (stats.length : ℚ) := by
  have hlen : 0 < (stats.length : ℚ) := by
    exact_mod_cast List.length_pos.2 hne
  have hsum := foldl_add_ge L stats 0 h
  rw [le_div_iff₀ hlen]
  linarith

/-- One tick over a non-empty all-over-limit window can only lower the rate,
and never below 0 (when `0 ≤ K` and the incoming rate is nonnegative). -/
lemma evalTick_overlimit_step (t : T) (hK : 0 ≤ t.K) {r : ℚ} (h0 : 0 ≤ r)
    {stats : List ℚ} (hne : stats ≠ []) (hge : ∀ x ∈ stats, t.L ≤ x) :
    (evalTick t r stats).1 ≤ r ∧ 0 ≤ (evalTick t r stats).1 := by
  rw [evalTick_eq_spec t r stats hne]
  simp only [evalTickSpec, hne, if_false, ite_false]
  have havg : t.L ≤ stats.foldl (· + ·) 0 / (stats.length : ℚ) :=
    le_avg_of_forall_le hne hge
  have hstep : t.K * (t.L - stats.foldl (· + ·) 0 / (stats.length : ℚ)) ≤ 0 :=
    mul_nonpos_iff.2 (Or.inl ⟨hK, by linarith⟩)
  simp only [ge_iff_le, havg, if_true, ite_true]
  exact ⟨max_le h0 (by linarith), le_max_left 0 _⟩

/-- Under sustained over-limit windows the rate trace is pointwise
non-increasing and nonnegative. -/
lemma rateTrace_overlimit (t : T) (hK : 0 ≤ t.K) :
    ∀ (ws : List (List ℚ)) {r : ℚ}, 0 ≤ r →
      (∀ w ∈ ws, w ≠ [] ∧ ∀ x ∈ w, t.L ≤ x) →
      List.Chain' (fun a b => b ≤ a) (rateTrace t r ws) ∧
        ∀ x ∈ rateTrace t r ws, 0 ≤ x := by
  intro ws
  induction ws with
  | nil =>
      intro r h0 _
      refine ⟨List.chain'_singleton r, ?_⟩
      intro x hx
      simp only [rateTrace, List.mem_singleton] at hx
      subst hx; exact h0
  | cons w ws ih =>
      intro r h0 hw
      obtain ⟨hne, hge⟩ := hw w (List.mem_cons_self w ws)
      obtain ⟨hle, hr0⟩ := evalTick_overlimit_step t hK h0 hne hge
      have hws : ∀ w' ∈ ws, w' ≠ [] ∧ ∀ x ∈ w', t.L ≤ x :=
        fun w' h' => hw w' (List.mem_cons_of_mem w h')
      obtain ⟨hchain, hall⟩ := ih hr0 hws
      obtain ⟨tl, htl⟩ := rateTrace_head_cons t (evalTick t r w).1 ws
      constructor
      · show List.Chain' _ (r :: rateTrace t (evalTick t r w).1 ws)
        rw [htl] at hchain ⊢
        exact List.chain'_cons.2 ⟨hle, hchain⟩
      · intro x hx
        simp only [rateTrace, List.mem_cons] at hx
        rcases hx with rfl | hx
        · exact h0
        · exact hall x hx

/-- C2: on a non-empty sample buffer the evaluation tick computes
`avg` = arithmetic mean of the buffered samples, `step = K * (L - avg)`,
`newR = currentR + step`, clamps `newR` below at 0 when `avg ≥ L` and above
at 100 when `avg < L`, writes it unconditionally, and clears the buffer:
the code's tick body coincides with the spec's description. -/
theorem C2_evalTick_refines_spec (t : T) (r : ℚ) (stats : List ℚ)
    (h : stats ≠ []) : evalTick t r stats = evalTickSpec t r stats :=
  evalTick_eq_spec t r stats h

/-- Closed witness for C2 at a concrete input. -/
theorem C2_evalTick_refines_spec_witness :
    evalTick (New 10 2 2000000 250000) 100 [20, 20] =
      evalTickSpec (New 10 2 2000000 250000) 100 [20, 20] :=
  C2_evalTick_refines_spec (New 10 2 2000000 250000) 100 [20, 20] (by decide)

/-- C4: immediately after a successful activation (entry of `Start` resets the
boxed rate) the admission rate is exactly 100, and every call to `Allow`
returns `true` deterministically, because the draw `u01 * 100` lies in
`[0, 100)` and is therefore strictly below 100. -/
theorem C4_optimistic_start (t : T) (h : t.started = false)
    (u01 : ℚ) (h0 : 0 ≤ u01) (h1 : u01 < 1) :
    (startEnter t).2.r = 100 ∧ 0 ≤ u01 * 100 ∧ u01 * 100 < 100 ∧
      Allow (startEnter t).2 u01 = true := by
  have hr : (startEnter t).2.r = 100 := by simp [startEnter, h]
  have hlt : u01 * 100 < 100 := by nlinarith
  exact ⟨hr, mul_nonneg h0 (by norm_num), hlt, by simp [Allow, hr, hlt]⟩

/-- Closed witness for C4 at a concrete input. -/
theorem C4_optimistic_start_witness :
    (startEnter (New 10 2 2000000 250000)).2.r = 100 ∧
      0 ≤ (1/2 : ℚ) * 100 ∧ (1/2 : ℚ) * 100 < 100 ∧
      Allow (startEnter (New 10 2 2000000 250000)).2 (1/2) = true :=
  C4_optimistic_start (New 10 2 2000000 250000) rfl (1/2)
    (by norm_num) (by norm_num)

/-- C5: for every call, with the generator output `u01 ∈ [0,1)`, the draw
`u = u01 * 100` lies in `[0, 100)` and `Allow` returns exactly the boolean
`u < R` for the current rate `R`; it is a total function into `Bool`
(never errors). -/
theorem C5_allow_decision (t : T) (u01 : ℚ) (h0 : 0 ≤ u01) (h1 : u01 < 1) :
    0 ≤ u01 * 100 ∧ u01 * 100 < 100 ∧
      Allow t u01 = decide (u01 * 100 < t.r) := by
  refine ⟨mul_nonneg h0 (by norm_num), by nlinarith, rfl⟩

/-- Closed witness for C5 at a concrete input. -/
theorem C5_allow_decision_witness :
    0 ≤ (1/4 : ℚ) * 100 ∧ (1/4 : ℚ) * 100 < 100 ∧
      Allow (New 10 2 2000000 250000) (1/4) =
        decide ((1/4 : ℚ) * 100 < (New 10 2 2000000 250000).r) :=
  C5_allow_decision (New 10 2 2000000 250000) (1/4) (by norm_num) (by norm_num)

/-- C6: calling `Start` while the throttler is already running returns the
distinct error `ErrAlreadyStarted` and hands back the state completely
untouched: in particular the boxed rate is not reset to 100 and the
`started` flag is unchanged. -/
theorem C6_double_start_error (t : T) (h : t.started = true) :
    startEnter t = (some .alreadyStarted, t) := by
  simp [startEnter, h]

/-- Closed witness for C6 at a concrete input: a started throttler. -/
theorem C6_double_start_error_witness :
    startEnter ((startEnter (New 10 2 2000000 250000)).2) =
      (some .alreadyStarted, (startEnter (New 10 2 2000000 250000)).2) :=
  C6_double_start_error ((startEnter (New 10 2 2000000 250000)).2) rfl

/-- C7: an evaluation tick that fires with an empty sample buffer skips the
adjustment entirely, leaves the rate (and buffer) unchanged, and the loop
continues (the iteration yields `some`, not an exit). -/
theorem C7_empty_window_skips (t : T) (s : LoopState) (h : s.stats = []) :
    loopStep t s .evalTick = some s := by
  rcases s with ⟨r, stats⟩
  simp only at h
  subst h
  simp [loopStep, evalTick]

/-- Closed witness for C7 at a concrete input. -/
theorem C7_empty_window_skips_witness :
    loopStep (New 10 2 2000000 250000) ⟨100, []⟩ .evalTick =
      some ⟨100, []⟩ :=
  C7_empty_window_skips (New 10 2 2000000 250000) ⟨100, []⟩ rfl

/-- C10: when the current admission rate is 0, every call to `Allow` returns
`false` deterministically, because the draw `u01 * 100` is nonnegative and
can never be strictly below 0. -/
theorem C10_zero_rate_denies (t : T) (hr : t.r = 0)
    (u01 : ℚ) (h0 : 0 ≤ u01) : Allow t u01 = false := by
  have hnn : ¬ (u01 * 100 < 0) := not_lt.2 (mul_nonneg h0 (by norm_num))
  simp [Allow, hr, hnn]

/-- Closed witness for C10 at a concrete input. -/
theorem C10_zero_rate_denies_witness :
    Allow { New 10 2 2000000 250000 with r := 0 } (1/2) = false :=
  C10_zero_rate_denies { New 10 2 2000000 250000 with r := 0 } rfl (1/2)
    (by norm_num)

/-- C3 (code bug): the `done` channel is never initialized — `New` leaves it
as Go's nil channel and `Start` never assigns it — so `Stop`'s send blocks
forever and the loop's cancellation case can never fire; the clean-exit /
restart behaviour the claim describes is unreachable. -/
theorem C3_stop_never_completes :
    stopCanComplete (New 10 2 2000000 250000) = false ∧
      stopCanComplete ((startEnter (New 10 2 2000000 250000)).2) = false :=
  ⟨rfl, rfl⟩

/-- C9 (code bug): `Allow` uses the shared non-thread-safe `*rand.Rand` with
no synchronization, so there is an interleaving of two concurrent calls in
which both read the same generator state: the two draws coincide (not
independent) and one generator advance is lost, unlike the serialized
execution where the draws differ and the state advances twice. -/
theorem C9_shared_rand_race :
    (twoAllowDraws stepGen 0 .raced).1.1 = (twoAllowDraws stepGen 0 .raced).1.2 ∧
      (twoAllowDraws stepGen 0 .seq).1.1 ≠ (twoAllowDraws stepGen 0 .seq).1.2 ∧
      (twoAllowDraws stepGen 0 .raced).2 ≠ (twoAllowDraws stepGen 0 .seq).2 := by
  refine ⟨rfl, ?_, ?_⟩ <;> norm_num [twoAllowDraws, stepGen]

/-- C1: for a throttler constructed with step multiplier `K ≥ 0` and started
(so the admission rate begins at 100), after any finite sequence of
evaluation-tick adjustments over non-empty sample buffers, every rate in the
trace stays within `[0, 100]` inclusive. -/
theorem C1_rate_bounded (cpuLimit k : ℚ) (hk : 0 ≤ k)
    (interval intervalStep : ℕ) (ws : List (List ℚ))
    (_hne : ∀ w ∈ ws, w ≠ []) (x : ℚ)
    (hx : x ∈ rateTrace ((startEnter (New cpuLimit k interval intervalStep)).2)
      ((startEnter (New cpuLimit k interval intervalStep)).2).r ws) :
    0 ≤ x ∧ x ≤ 100 := by
  have hK : ((startEnter (New cpuLimit k interval intervalStep)).2).K = k := by
    simp [startEnter, New]
  have hr : ((startEnter (New cpuLimit k interval intervalStep)).2).r = 100 := by
    simp [startEnter, New]
  refine rateTrace_bounds _ ?_ ws ?_ ?_ x hx
  · rw [hK]; exact hk
  · rw [hr]; norm_num
  · rw [hr]

/-- Closed witness for C1: with `L = 10`, `K = 2` and two all-20 windows the
trace is `[100, 80, 60]`, and the rate 60 reached after the second window is
within bounds. -/
theorem C1_rate_bounded_witness : 0 ≤ (60 : ℚ) ∧ (60 : ℚ) ≤ 100 :=
  C1_rate_bounded 10 2 (by norm_num) 2000000 250000 [[20, 20], [20]]
    (by simp) 60
    (by norm_num [rateTrace, evalTick, startEnter, New])

/-- C8: if every sample in every window is at or above the limit `L` and
`K ≥ 0`, the admission rate is monotonically non-increasing over successive
evaluation ticks and never goes below 0. -/
theorem C8_overlimit_monotone (t : T) (hK : 0 ≤ t.K) (r : ℚ) (h0 : 0 ≤ r)
    (ws : List (List ℚ)) (hw : ∀ w ∈ ws, w ≠ [] ∧ ∀ x ∈ w, t.L ≤ x) :
    List.Chain' (fun a b => b ≤ a) (rateTrace t r ws) ∧
      ∀ x ∈ rateTrace t r ws, 0 ≤ x :=
  rateTrace_overlimit t hK ws h0 hw

/-- Closed witness for C8: with `L = 10`, `K = 2`, rate 100 and two all-20
windows, the trace `[100, 80, 60]` is non-increasing and its last entry is
nonnegative. -/
theorem C8_overlimit_monotone_witness :
    List.Chain' (fun a b => b ≤ a)
      (rateTrace (New 10 2 2000000 250000) 100 [[20], [20]]) ∧
      0 ≤ (60 : ℚ) := by
  have h := C8_overlimit_monotone (New 10 2 2000000 250000) (by norm_num [New])
    100 (by norm_num) [[20], [20]] (by norm_num [New])
  exact ⟨h.1, h.2 60 (by norm_num [rateTrace, evalTick, New])⟩

end Throttler
